import Mathlib

/-!
Verification of the deck.gl path-tessellation and text-layout core.

Part A embeds the path tessellator. Its caller `path-layer.js` is in the
repository, while `path-tesselator.js` itself is not, so the tessellator
is modelled from the spec (section 4.1): every definition marked
`Modelled from the spec:` follows the spec's algorithm text.

Part B embeds `text-layer/utils.js` (`nextPowOfTwo`, `buildMapping`,
`transformRow`, `transformParagraph`) directly from the source.

JavaScript numbers are modelled as exact rationals (ℚ) where values are
copied and combined by `+` / `*` / `max`, and as naturals (ℕ) in the
atlas-packing bookkeeping, whose quantities are pixel counts.
-/

namespace DeckGL

/-! ### Part A: path tessellator (modelled from the spec) -/

/-- A 3-component position. The spec fixes one component width per
tessellator instance; the default format is 3-component. -/
structure Point3 where
  x : ℚ
  y : ℚ
  z : ℚ
deriving DecidableEq, Repr

instance : Inhabited Point3 := ⟨⟨0, 0, 0⟩⟩

/-- Modelled from the spec: "normalize to fixed component width" — a raw
point (2 or 3 numeric components) is coerced to 3 components, zero-filling
the missing component. -/
def normalize3 (p : List ℚ) : Point3 :=
  ⟨p.getD 0 0, p.getD 1 0, p.getD 2 0⟩

/-- Flatten one position into its 3 scalar components. -/
def flat3 (p : Point3) : List ℚ :=
  [p.x, p.y, p.z]

/-- Modelled from the spec: a path of fewer than 2 points yields 0
segments, otherwise `pointCount - 1` segments. -/
def segCount (pts : List Point3) : ℕ :=
  if pts.length < 2 then 0 else pts.length - 1

/-- Modelled from the spec: segment type tag for segment `i` of a path of
`n` points — 1 marks the first segment, 2 the last, 3 a single segment
that is both, 0 an interior segment. -/
def segmentType (n i : ℕ) : ℕ :=
  (if i = 0 then 1 else 0) + (if i = n - 2 then 2 else 0)

/-- Modelled from the spec: the per-segment type stream of one path. -/
def pathSegmentTypes (pts : List Point3) : List ℕ :=
  (List.range (segCount pts)).map (segmentType pts.length)

/-- Modelled from the spec: the start-position stream of one path; for
segment `i`, emit `[prev, points[i]]` where `prev = points[i-1]` if
`i > 0` else `points[i]` — 6 scalars per segment. -/
def pathStartPositions (pts : List Point3) : List ℚ :=
  ((List.range (segCount pts)).map (fun i =>
    let p := pts.getD i default
    let prev := if 0 < i then pts.getD (i - 1) default else p
    flat3 prev ++ flat3 p)).flatten

/-- Modelled from the spec: the end-position stream of one path; for
segment `i`, emit `[points[i+1], next]` where `next = points[i+2]` if it
exists else `points[i+1]` — 6 scalars per segment. -/
def pathEndPositions (pts : List Point3) : List ℚ :=
  ((List.range (segCount pts)).map (fun i =>
    let q := pts.getD (i + 1) default
    let next := if i + 2 < pts.length then pts.getD (i + 2) default else q
    flat3 q ++ flat3 next)).flatten

/-- The tessellator's outputs after an `updateGeometry` call: the three
flat attribute streams, the per-record segment counts, and the total
segment count. -/
structure Tessellator where
  startPositions : List ℚ
  endPositions : List ℚ
  segmentTypes : List ℕ
  bufferLayout : List ℕ
  instanceCount : ℕ
deriving Repr, DecidableEq

/-- Modelled from the spec: `updateGeometry` walks every record in input
order, extracts its point sequence via `getGeometry`, normalizes the
component width, and appends that path's segment streams; `bufferLayout`
records one segment count per record and `instanceCount` their total. -/
def updateGeometry {α : Type _} (data : List α) (getGeometry : α → List (List ℚ)) :
    Tessellator :=
  let paths := data.map (fun r => (getGeometry r).map normalize3)
  { startPositions := (paths.map pathStartPositions).flatten
    endPositions := (paths.map pathEndPositions).flatten
    segmentTypes := (paths.map pathSegmentTypes).flatten
    bufferLayout := paths.map segCount
    instanceCount := (paths.map segCount).sum }

/-- The slice of `PathLayer` state refreshed by `updateState` on a
geometry change (from `path-layer.js`): `numInstances` and `bufferLayout`
are taken from the tessellator. -/
structure PathLayerState where
  numInstances : ℕ
  bufferLayout : List ℕ
deriving Repr

/-- From `path-layer.js` `updateState`: on a geometry change the layer
runs `pathTesselator.updateGeometry` and stores the tessellator's
`instanceCount` and `bufferLayout` in its state. -/
def pathLayerUpdateState {α : Type _} (data : List α)
    (getPath : α → List (List ℚ)) : PathLayerState :=
  let t := updateGeometry data getPath
  { numInstances := t.instanceCount
    bufferLayout := t.bufferLayout }

/-! ### Helper lemmas for Part A -/

lemma length_flatten_map {α β : Type _} (l : List α) (f : α → List β) :
    ((l.map f).flatten).length = (l.map (fun a => (f a).length)).sum := by
  induction l with
  | nil => rfl
  | cons a t ih => simp [ih]

lemma range_map_getD (n i k : ℕ) (f : ℕ → ℕ) (h : i < n) :
    ((List.range n).map f).getD i k = f i := by
  rw [List.getD_eq_getElem?_getD, List.getElem?_map, List.getElem?_range h]
  rfl

lemma length_pathSegmentTypes (pts : List Point3) :
    (pathSegmentTypes pts).length = segCount pts := by
  simp [pathSegmentTypes]

lemma length_pathStartPositions (pts : List Point3) :
    (pathStartPositions pts).length = 6 * segCount pts := by
  unfold pathStartPositions
  rw [length_flatten_map]
  have h : ((List.range (segCount pts)).map (fun _ => 6)).sum = 6 * segCount pts := by
    simp [List.map_const', List.sum_replicate, Nat.mul_comm]
  rw [← h]
  congr 1

lemma length_pathEndPositions (pts : List Point3) :
    (pathEndPositions pts).length = 6 * segCount pts := by
  unfold pathEndPositions
  rw [length_flatten_map]
  have h : ((List.range (segCount pts)).map (fun _ => 6)).sum = 6 * segCount pts := by
    simp [List.map_const', List.sum_replicate, Nat.mul_comm]
  rw [← h]
  congr 1

lemma sum_map_six_mul {α : Type _} (l : List α) (f : α → ℕ) :
    (l.map (fun a => 6 * f a)).sum = 6 * (l.map f).sum := by
  induction l with
  | nil => rfl
  | cons a t ih => simp [ih, Nat.mul_add]

/-- **C1.** After every `updateGeometry` call, `sum(bufferLayout)` equals
`instanceCount`, which equals `length(segmentTypes)`,
`length(startPositions)/6` and `length(endPositions)/6`; and the
`PathLayer` stores exactly the tessellator's `instanceCount` and
`bufferLayout` as its `numInstances` and `bufferLayout` state. -/
theorem C1_tessellator_invariants {α : Type _} (data : List α)
    (getGeometry : α → List (List ℚ)) :
    (updateGeometry data getGeometry).bufferLayout.sum
        = (updateGeometry data getGeometry).instanceCount ∧
    (updateGeometry data getGeometry).segmentTypes.length
        = (updateGeometry data getGeometry).instanceCount ∧
    (updateGeometry data getGeometry).startPositions.length
        = 6 * (updateGeometry data getGeometry).instanceCount ∧
    (updateGeometry data getGeometry).endPositions.length
        = 6 * (updateGeometry data getGeometry).instanceCount ∧
    (updateGeometry data getGeometry).startPositions.length / 6
        = (updateGeometry data getGeometry).instanceCount ∧
    (updateGeometry data getGeometry).endPositions.length / 6
        = (updateGeometry data getGeometry).instanceCount ∧
    (pathLayerUpdateState data getGeometry).numInstances
        = (updateGeometry data getGeometry).instanceCount ∧
    (pathLayerUpdateState data getGeometry).bufferLayout
        = (updateGeometry data getGeometry).bufferLayout := by
  have hTypes : (updateGeometry data getGeometry).segmentTypes.length
      = (updateGeometry data getGeometry).instanceCount := by
    simp only [updateGeometry]
    rw [length_flatten_map]
    simp only [List.map_map]
    congr 1
    apply List.map_congr_left
    intro p _
    exact length_pathSegmentTypes _
  have hStart : (updateGeometry data getGeometry).startPositions.length
      = 6 * (updateGeometry data getGeometry).instanceCount := by
    simp only [updateGeometry]
    rw [length_flatten_map]
    rw [← sum_map_six_mul]
    simp only [List.map_map]
    congr 1
    apply List.map_congr_left
    intro p _
    exact length_pathStartPositions _
  have hEnd : (updateGeometry data getGeometry).endPositions.length
      = 6 * (updateGeometry data getGeometry).instanceCount := by
    simp only [updateGeometry]
    rw [length_flatten_map]
    rw [← sum_map_six_mul]
    simp only [List.map_map]
    congr 1
    apply List.map_congr_left
    intro p _
    exact length_pathEndPositions _
  refine ⟨rfl, hTypes, hStart, hEnd, ?_, ?_, rfl, rfl⟩
  · rw [hStart]; exact Nat.mul_div_cancel_left _ (by norm_num)
  · rw [hEnd]; exact Nat.mul_div_cancel_left _ (by norm_num)

lemma updateGeometry_single_segmentTypes (raw : List (List ℚ)) :
    (updateGeometry [raw] (fun r => r)).segmentTypes
      = pathSegmentTypes (raw.map normalize3) := by
  simp [updateGeometry]

/-- **C2.** A record whose path has `N` points contributes 0 segments and
a bufferLayout entry of 0 when `N < 2`; otherwise `N - 1` segments whose
type tags are 3 for the single segment when `N = 2`, and otherwise 1 for
segment 0, 2 for segment `N - 2`, and 0 for every interior segment. -/
theorem C2_segment_counts_and_types (raw : List (List ℚ)) :
    (raw.length < 2 →
      (updateGeometry [raw] (fun r => r)).bufferLayout = [0] ∧
      (updateGeometry [raw] (fun r => r)).segmentTypes = []) ∧
    (2 ≤ raw.length →
      (updateGeometry [raw] (fun r => r)).bufferLayout = [raw.length - 1] ∧
      (updateGeometry [raw] (fun r => r)).segmentTypes.length = raw.length - 1) ∧
    (raw.length = 2 →
      (updateGeometry [raw] (fun r => r)).segmentTypes = [3]) ∧
    (2 < raw.length →
      (updateGeometry [raw] (fun r => r)).segmentTypes.getD 0 7 = 1 ∧
      (updateGeometry [raw] (fun r => r)).segmentTypes.getD (raw.length - 2) 7 = 2 ∧
      ∀ i, 0 < i → i < raw.length - 2 →
        (updateGeometry [raw] (fun r => r)).segmentTypes.getD i 7 = 0) := by
  have hlen : (raw.map normalize3).length = raw.length := List.length_map _ _
  have hseg : 2 ≤ raw.length → segCount (raw.map normalize3) = raw.length - 1 := by
    intro h2
    simp [segCount, hlen, Nat.not_lt.mpr h2]
  refine ⟨?_, ?_, ?_, ?_⟩
  · intro h2
    match raw, h2 with
    | [], _ => exact ⟨rfl, rfl⟩
    | [a], _ => exact ⟨rfl, rfl⟩
  · intro h2
    constructor
    · show [segCount (raw.map normalize3)] = [raw.length - 1]
      rw [hseg h2]
    · rw [updateGeometry_single_segmentTypes, length_pathSegmentTypes, hseg h2]
  · intro h2
    obtain ⟨a, b, rfl⟩ := List.length_eq_two.mp h2
    rfl
  · intro h2
    rw [updateGeometry_single_segmentTypes]
    unfold pathSegmentTypes
    rw [hlen, hseg (le_of_lt h2)]
    refine ⟨?_, ?_, ?_⟩
    · rw [range_map_getD _ _ _ _ (by omega)]
      have h0 : ¬ ((0 : ℕ) = raw.length - 2) := by omega
      simp [segmentType, h0]
    · rw [range_map_getD _ _ _ _ (by omega)]
      have h0 : raw.length - 2 ≠ 0 := by omega
      simp [segmentType, h0]
    · intro i hi0 hiN
      rw [range_map_getD _ _ _ _ (by omega)]
      have h1 : i ≠ 0 := by omega
      have h2 : i ≠ raw.length - 2 := by omega
      simp [segmentType, h1, h2]

/-- Witness for C2 at the concrete 4-point path
`[(0,0),(1,0),(2,0),(3,0)]`. -/
theorem C2_segment_counts_and_types_witness :
    2 < ([[0,0],[1,0],[2,0],[3,0]] : List (List ℚ)).length ∧
    (updateGeometry [([[0,0],[1,0],[2,0],[3,0]] : List (List ℚ))]
        (fun r => r)).segmentTypes.getD 0 7 = 1 ∧
    (updateGeometry [([[0,0],[1,0],[2,0],[3,0]] : List (List ℚ))]
        (fun r => r)).segmentTypes.getD 2 7 = 2 ∧
    (updateGeometry [([[0,0],[1,0],[2,0],[3,0]] : List (List ℚ))]
        (fun r => r)).segmentTypes.getD 1 7 = 0 := by
  have h := C2_segment_counts_and_types [[0,0],[1,0],[2,0],[3,0]]
  have h4 : 2 < ([[0,0],[1,0],[2,0],[3,0]] : List (List ℚ)).length := by
    simp
  obtain ⟨hA, hB, hC⟩ := h.2.2.2 h4
  exact ⟨h4, hA, hB, hC 1 (by norm_num) (by simp)⟩

/-- **C3.** Tessellating the single 3-point path `[(0,0),(1,0),(1,1)]`
with 3-component positions produces exactly 2 segments with
`start0 = [0,0,0, 0,0,0]`, `end0 = [1,0,0, 1,1,0]`, `type0 = 1`,
`start1 = [0,0,0, 1,0,0]`, `end1 = [1,1,0, 1,1,0]`, `type1 = 2`: the
previous point of the first segment falls back to its own start and the
next point of the last segment falls back to its own end. -/
theorem C3_three_point_path_roundtrip :
    updateGeometry [([[0, 0], [1, 0], [1, 1]] : List (List ℚ))] (fun r => r) =
      { startPositions := [0,0,0, 0,0,0, 0,0,0, 1,0,0]
        endPositions := [1,0,0, 1,1,0, 1,1,0, 1,1,0]
        segmentTypes := [1, 2]
        bufferLayout := [2]
        instanceCount := 2 } := rfl

/-! ### Part B: text-layer utilities (`text-layer/utils.js`) -/

/-- From the source: fixed fallback advance width for characters missing
from the glyph mapping. -/
def MISSING_CHAR_WIDTH : ℚ := 32

/-- From the source: `nextPowOfTwo(n) = 2 ** ceil(log2 n)`. With exact
real logarithms this is `2 ^ Nat.clog 2 n` for `n ≥ 1`; for `n = 0`,
JavaScript gives `Math.log2(0) = -∞` and `2 ** -∞ = 0`. -/
def nextPowOfTwo (n : ℕ) : ℕ :=
  if n = 0 then 0 else 2 ^ Nat.clog 2 n

/-- One entry of the glyph-atlas mapping table built by `buildMapping`:
pixel position and size of the character's cell, all in atlas pixels. -/
structure CharEntry where
  x : ℕ
  y : ℕ
  width : ℕ
  height : ℕ
  mask : Bool
deriving DecidableEq, Repr

/-- The mapping table `{character -> entry}` as an association list in
insertion order; a JavaScript object lookup reads the unique binding. -/
def lookupChar (m : List (Char × CharEntry)) (c : Char) : Option CharEntry :=
  match m with
  | [] => none
  | (k, v) :: rest => if k = c then some v else lookupChar rest c

/-- The packer state threaded through `buildMapping`'s character loop:
the mapping table, the running x offset, and the current row index. -/
structure BuildState where
  mapping : List (Char × CharEntry)
  x : ℕ
  row : ℕ
deriving DecidableEq, Repr

/-- From the source: place one character that is not yet in the mapping.
If `x + width + buffer * 2` exceeds `maxCanvasWidth` the packer wraps
(`x` resets to 0, `row` increments); the cell is recorded at
`(x + buffer, yOffset + row * (fontHeight + buffer * 2) + buffer)` and
`x` then advances by `width + buffer * 2`. -/
def placeNewChar (fontHeight buffer maxCanvasWidth yOffset : ℕ)
    (s : BuildState) (c : Char) (width : ℕ) : BuildState :=
  let wrap := maxCanvasWidth < s.x + width + buffer * 2
  let x := if wrap then 0 else s.x
  let row := if wrap then s.row + 1 else s.row
  { mapping := s.mapping ++ [(c,
      { x := x + buffer
        y := yOffset + row * (fontHeight + buffer * 2) + buffer
        width := width
        height := fontHeight
        mask := true })]
    x := x + width + buffer * 2
    row := row }

/-- From the source: the body of `buildMapping`'s character loop —
characters already in the mapping are skipped; `getFontWidth` receives
the character and its index in the character set. -/
def buildMappingStep (getFontWidth : Char → ℕ → ℕ)
    (fontHeight buffer maxCanvasWidth yOffset : ℕ)
    (s : BuildState) (ci : ℕ × Char) : BuildState :=
  if (lookupChar s.mapping ci.2).isSome then s
  else placeNewChar fontHeight buffer maxCanvasWidth yOffset s ci.2
    (getFontWidth ci.2 ci.1)

/-- The value returned by `buildMapping`. -/
structure BuildResult where
  mapping : List (Char × CharEntry)
  xOffset : ℕ
  yOffset : ℕ
  canvasHeight : ℕ
deriving DecidableEq, Repr

/-- From the source: `buildMapping` scans the character set in order,
placing unseen characters starting from pen position `(xOffset, row 0)`,
and returns the grown mapping, the final pen position, and
`canvasHeight = nextPowOfTwo (yOffset + (row + 1) * (fontHeight + buffer * 2))`. -/
def buildMapping (characterSet : List Char) (getFontWidth : Char → ℕ → ℕ)
    (fontHeight buffer maxCanvasWidth : ℕ)
    (mapping : List (Char × CharEntry)) (xOffset yOffset : ℕ) : BuildResult :=
  let s := characterSet.enum.foldl
    (buildMappingStep getFontWidth fontHeight buffer maxCanvasWidth yOffset)
    ⟨mapping, xOffset, 0⟩
  let rowHeight := fontHeight + buffer * 2
  { mapping := s.mapping
    xOffset := s.x
    yOffset := yOffset + s.row * rowHeight
    canvasHeight := nextPowOfTwo (yOffset + (s.row + 1) * rowHeight) }

/-! ### Helper lemmas for the atlas packer -/

lemma lookupChar_append_left (m m' : List (Char × CharEntry)) (c : Char)
    (e : CharEntry) (h : lookupChar m c = some e) :
    lookupChar (m ++ m') c = some e := by
  induction m with
  | nil => simp [lookupChar] at h
  | cons kv rest ih =>
    by_cases hk : kv.1 = c
    · simp [lookupChar, hk] at h ⊢
      exact h
    · simp only [lookupChar, hk, if_false, List.cons_append] at h ⊢
      exact ih h

lemma lookupChar_append_self (m : List (Char × CharEntry)) (c : Char)
    (e : CharEntry) (h : lookupChar m c = none) :
    lookupChar (m ++ [(c, e)]) c = some e := by
  induction m with
  | nil => simp [lookupChar]
  | cons kv rest ih =>
    by_cases hk : kv.1 = c
    · simp [lookupChar, hk] at h
    · simp only [lookupChar, hk, if_false, List.cons_append] at h ⊢
      exact ih h

lemma buildMappingStep_preserves (g : Char → ℕ → ℕ)
    (fH buf maxW yOff : ℕ) (s : BuildState) (ci : ℕ × Char)
    (c : Char) (e : CharEntry) (h : lookupChar s.mapping c = some e) :
    lookupChar (buildMappingStep g fH buf maxW yOff s ci).mapping c = some e := by
  unfold buildMappingStep
  split
  · exact h
  · exact lookupChar_append_left _ _ _ _ h

lemma foldl_buildMappingStep_preserves (g : Char → ℕ → ℕ)
    (fH buf maxW yOff : ℕ) (c : Char) (e : CharEntry) :
    ∀ (l : List (ℕ × Char)) (s : BuildState),
      lookupChar s.mapping c = some e →
      lookupChar ((l.foldl (buildMappingStep g fH buf maxW yOff) s)).mapping c
        = some e := by
  intro l
  induction l with
  | nil => intro s h; exact h
  | cons ci rest ih =>
    intro s h
    exact ih _ (buildMappingStep_preserves g fH buf maxW yOff s ci c e h)

/-- **C4.** A character not already in the mapping starts a new row (the
row index increments and it is placed at `x = buffer`) exactly when the
running x offset plus the character's width plus twice the buffer exceeds
`maxCanvasWidth`; otherwise it is placed on the current row at
`x + buffer`. In particular with `maxCanvasWidth = 64`, `buffer = 2` and
every character 30 wide, the second character lands on a new row. -/
theorem C4_atlas_row_wrap (g : Char → ℕ → ℕ) (fH buf maxW yOff : ℕ)
    (s : BuildState) (c : Char) (i : ℕ)
    (hc : lookupChar s.mapping c = none) :
    ((buildMappingStep g fH buf maxW yOff s (i, c)).row = s.row + 1
        ↔ maxW < s.x + g c i + buf * 2) ∧
    (maxW < s.x + g c i + buf * 2 →
      lookupChar (buildMappingStep g fH buf maxW yOff s (i, c)).mapping c
        = some ⟨buf, yOff + (s.row + 1) * (fH + buf * 2) + buf, g c i, fH, true⟩ ∧
      (buildMappingStep g fH buf maxW yOff s (i, c)).x = g c i + buf * 2) ∧
    (¬ maxW < s.x + g c i + buf * 2 →
      (buildMappingStep g fH buf maxW yOff s (i, c)).row = s.row ∧
      lookupChar (buildMappingStep g fH buf maxW yOff s (i, c)).mapping c
        = some ⟨s.x + buf, yOff + s.row * (fH + buf * 2) + buf, g c i, fH, true⟩ ∧
      (buildMappingStep g fH buf maxW yOff s (i, c)).x
        = s.x + g c i + buf * 2) ∧
    lookupChar (buildMapping ['A', 'B'] (fun _ _ => 30) 10 2 64 [] 0 0).mapping 'B'
        = some ⟨2, 16, 30, 10, true⟩ ∧
    lookupChar (buildMapping ['A', 'B'] (fun _ _ => 30) 10 2 64 [] 0 0).mapping 'A'
        = some ⟨2, 2, 30, 10, true⟩ := by
  have hstep : buildMappingStep g fH buf maxW yOff s (i, c)
      = placeNewChar fH buf maxW yOff s c (g c i) := by
    unfold buildMappingStep
    rw [show ((i, c).2) = c from rfl, hc]
    rfl
  rw [hstep]
  by_cases hw : maxW < s.x + g c i + buf * 2
  · refine ⟨?_, ?_, ?_, by decide, by decide⟩
    · simp [placeNewChar, hw]
    · intro _
      constructor
      · show lookupChar (s.mapping ++ [(c, _)]) c = _
        rw [lookupChar_append_self _ _ _ hc]
        simp [placeNewChar, hw]
      · simp [placeNewChar, hw]
    · intro h
      exact absurd hw h
  · refine ⟨?_, ?_, ?_, by decide, by decide⟩
    · simp [placeNewChar, hw]
    · intro h
      exact absurd h hw
    · intro _
      refine ⟨by simp [placeNewChar, hw], ?_, by simp [placeNewChar, hw]⟩
      show lookupChar (s.mapping ++ [(c, _)]) c = _
      rw [lookupChar_append_self _ _ _ hc]
      simp [placeNewChar, hw]

/-- Witness for C4: placing a 30-wide character with the pen at
`x = 34` on a 64-wide canvas with buffer 2 wraps to the next row. -/
theorem C4_atlas_row_wrap_witness :
    lookupChar ([] : List (Char × CharEntry)) 'A' = none ∧
    ((buildMappingStep (fun _ _ => 30) 10 2 64 0 ⟨[], 34, 0⟩ (1, 'A')).row
        = (0 : ℕ) + 1 ↔ 64 < 34 + 30 + 2 * 2) :=
  ⟨rfl, (C4_atlas_row_wrap (fun _ _ => 30) 10 2 64 0 ⟨[], 34, 0⟩ 'A' 1 rfl).1⟩

/-- **C5 counterexample.** The claim quantifies over every `buildMapping`
call, but a call with `fontHeight = 0`, `buffer = 0` and `yOffset = 0`
returns `canvasHeight = 0`, which is not a power of two. -/
theorem C5_counterexample :
    (buildMapping [] (fun _ _ => 1) 0 0 64 [] 0 0).canvasHeight = 0 ∧
    ¬ ∃ k : ℕ,
      (buildMapping [] (fun _ _ => 1) 0 0 64 [] 0 0).canvasHeight = 2 ^ k := by
  have h0 : (buildMapping [] (fun _ _ => 1) 0 0 64 [] 0 0).canvasHeight = 0 := rfl
  refine ⟨h0, ?_⟩
  rintro ⟨k, hk⟩
  rw [h0] at hk
  have := pow_pos (show (0:ℕ) < 2 by norm_num) k
  omega

/-- **C5 (amended).** Whenever the row pitch `fontHeight + 2 * buffer` is
positive, or the incoming `yOffset` is, the returned `canvasHeight` is a
power of two at least the total vertical extent used by all placed rows,
`yOffset + (row + 1) * (fontHeight + 2 * buffer)` — that is, the result's
`yOffset` plus one row pitch. (When that extent is 0 the code returns
`canvasHeight = 0`, which is not a power of two; see the
counterexample.) -/
theorem C5_canvas_height_pow_two (chars : List Char) (g : Char → ℕ → ℕ)
    (fH buf maxW : ℕ) (mp : List (Char × CharEntry)) (xOff yOff : ℕ)
    (h : 0 < fH + buf * 2 ∨ 0 < yOff) :
    (∃ k : ℕ,
      (buildMapping chars g fH buf maxW mp xOff yOff).canvasHeight = 2 ^ k) ∧
    (buildMapping chars g fH buf maxW mp xOff yOff).yOffset + (fH + buf * 2)
      ≤ (buildMapping chars g fH buf maxW mp xOff yOff).canvasHeight := by
  have hch : (buildMapping chars g fH buf maxW mp xOff yOff).canvasHeight
      = nextPowOfTwo (yOff +
          ((chars.enum.foldl (buildMappingStep g fH buf maxW yOff)
            ⟨mp, xOff, 0⟩).row + 1) * (fH + buf * 2)) := rfl
  have hyo : (buildMapping chars g fH buf maxW mp xOff yOff).yOffset
      = yOff + (chars.enum.foldl (buildMappingStep g fH buf maxW yOff)
          ⟨mp, xOff, 0⟩).row * (fH + buf * 2) := rfl
  set r := (chars.enum.foldl (buildMappingStep g fH buf maxW yOff)
      ⟨mp, xOff, 0⟩).row with hr
  set n := yOff + (r + 1) * (fH + buf * 2) with hn
  have hpos : 0 < n := by
    rcases h with h | h
    · have : 0 < (r + 1) * (fH + buf * 2) := Nat.mul_pos (Nat.succ_pos _) h
      omega
    · omega
  have hval : nextPowOfTwo n = 2 ^ Nat.clog 2 n := by
    unfold nextPowOfTwo
    rw [if_neg (by omega)]
  have hle : n ≤ 2 ^ Nat.clog 2 n := Nat.le_pow_clog (by norm_num) n
  constructor
  · exact ⟨Nat.clog 2 n, by rw [hch, hval]⟩
  · rw [hch, hyo, hval]
    have hsum : yOff + r * (fH + buf * 2) + (fH + buf * 2) = n := by
      rw [hn, Nat.succ_mul]
      omega
    omega

/-- Witness for C5 (amended) at a concrete call: one 30-wide character,
font height 10, buffer 2. -/
theorem C5_canvas_height_pow_two_witness :
    ((0:ℕ) < 10 + 2 * 2 ∨ (0:ℕ) < 0) ∧
    ((∃ k : ℕ,
        (buildMapping ['A'] (fun _ _ => 30) 10 2 64 [] 0 0).canvasHeight
          = 2 ^ k) ∧
      (buildMapping ['A'] (fun _ _ => 30) 10 2 64 [] 0 0).yOffset + (10 + 2 * 2)
        ≤ (buildMapping ['A'] (fun _ _ => 30) 10 2 64 [] 0 0).canvasHeight) :=
  ⟨Or.inl (by decide),
    C5_canvas_height_pow_two ['A'] (fun _ _ => 30) 10 2 64 [] 0 0
      (Or.inl (by decide))⟩

/-- **C6.** `buildMapping` never changes an existing entry: every
character present in the old mapping keeps exactly its previous entry,
and a character whose binding differs after the call was absent before. -/
theorem C6_existing_entries_preserved (chars : List Char)
    (g : Char → ℕ → ℕ) (fH buf maxW : ℕ)
    (mp : List (Char × CharEntry)) (xOff yOff : ℕ) :
    (∀ (c : Char) (e : CharEntry), lookupChar mp c = some e →
      lookupChar (buildMapping chars g fH buf maxW mp xOff yOff).mapping c
        = some e) ∧
    (∀ c : Char,
      lookupChar (buildMapping chars g fH buf maxW mp xOff yOff).mapping c
          ≠ lookupChar mp c →
      lookupChar mp c = none) := by
  have hpres : ∀ (c : Char) (e : CharEntry), lookupChar mp c = some e →
      lookupChar (buildMapping chars g fH buf maxW mp xOff yOff).mapping c
        = some e := by
    intro c e h
    exact foldl_buildMappingStep_preserves g fH buf maxW yOff c e
      chars.enum ⟨mp, xOff, 0⟩ h
  refine ⟨hpres, ?_⟩
  intro c hne
  cases hmp : lookupChar mp c with
  | none => rfl
  | some e => exact absurd (by rw [hpres c e hmp, hmp]) hne

/-- Witness for C6: an existing entry for `'A'` survives a call that adds
`'B'`. -/
theorem C6_existing_entries_preserved_witness :
    lookupChar [('A', (⟨1, 2, 3, 4, true⟩ : CharEntry))] 'A'
        = some ⟨1, 2, 3, 4, true⟩ ∧
    lookupChar (buildMapping ['A', 'B'] (fun _ _ => 30) 10 2 64
        [('A', ⟨1, 2, 3, 4, true⟩)] 0 0).mapping 'A' = some ⟨1, 2, 3, 4, true⟩ :=
  ⟨rfl,
    (C6_existing_entries_preserved ['A', 'B'] (fun _ _ => 30) 10 2 64
        [('A', ⟨1, 2, 3, 4, true⟩)] 0 0).1 'A' ⟨1, 2, 3, 4, true⟩ rfl⟩

/-- **C10.** For every `n ≥ 1`, `nextPowOfTwo n` is the least power of
two `≥ n`; but `nextPowOfTwo 0 = 0`, which is not a power of two, and a
`buildMapping` call with `fontHeight = 0`, `buffer = 0` (and the default
`yOffset = 0`) returns `canvasHeight = 0`. -/
theorem C10_next_pow_of_two (n : ℕ) (h : 1 ≤ n) :
    (n ≤ nextPowOfTwo n ∧ (∃ k : ℕ, nextPowOfTwo n = 2 ^ k) ∧
      ∀ k : ℕ, n ≤ 2 ^ k → nextPowOfTwo n ≤ 2 ^ k) ∧
    nextPowOfTwo 0 = 0 ∧
    (∀ k : ℕ, (0 : ℕ) ≠ 2 ^ k) ∧
    (∀ (chars : List Char) (g : Char → ℕ → ℕ) (maxW : ℕ)
        (mp : List (Char × CharEntry)) (xOff : ℕ),
      (buildMapping chars g 0 0 maxW mp xOff 0).canvasHeight = 0) := by
  have hne : n ≠ 0 := by omega
  have hval : nextPowOfTwo n = 2 ^ Nat.clog 2 n := by
    unfold nextPowOfTwo
    rw [if_neg hne]
  refine ⟨⟨?_, ⟨_, hval⟩, ?_⟩, rfl, ?_, ?_⟩
  · rw [hval]
    exact Nat.le_pow_clog (by norm_num) n
  · intro k hk
    rw [hval]
    exact Nat.pow_le_pow_right (by norm_num)
      ((Nat.le_pow_iff_clog_le (by norm_num)).mp hk)
  · intro k
    have := pow_pos (show (0:ℕ) < 2 by norm_num) k
    omega
  · intro chars g maxW mp xOff
    have hgen : ∀ m : ℕ, nextPowOfTwo (0 + (m + 1) * (0 + 0 * 2)) = 0 := by
      intro m
      simp [nextPowOfTwo]
    exact hgen ((chars.enum.foldl (buildMappingStep g 0 0 maxW 0)
      ⟨mp, xOff, 0⟩).row)

/-- Witness for C10 at `n = 5`. -/
theorem C10_next_pow_of_two_witness : 1 ≤ 5 ∧ 5 ≤ nextPowOfTwo 5 :=
  ⟨by decide, (C10_next_pow_of_two 5 (by decide)).1.1⟩

/-! ### Row and paragraph layout (`transformRow` / `transformParagraph`) -/

/-- A glyph frame of the icon mapping as consumed by the row layout:
width and height of the character in atlas pixels. -/
structure Frame where
  width : ℚ
  height : ℚ
deriving DecidableEq, Repr

/-- One per-character record emitted by `transformRow` in non-word-break
mode: the character, its y offset within the row (always 0 here) and its
cumulative x offset. -/
structure RowChar where
  text : Char
  offsetTop : ℚ
  offsetLeft : ℚ
deriving DecidableEq, Repr

instance : Inhabited RowChar := ⟨⟨'?', 0, 0⟩⟩

/-- The accumulator of `transformRow`'s character loop, plus the list of
`log.warn` diagnostics (one per missing character, non-fatal). -/
structure RowAcc where
  characters : List RowChar
  offsetLeft : ℚ
  rowHeight : ℚ
  warned : List Char
deriving DecidableEq, Repr

/-- From the source, the non-word-break branch of `transformRow`'s loop:
each character is emitted at the current `offsetLeft`; a mapped character
advances by its frame width and, if `rowHeight` is still falsy (0), sets
`rowHeight = frame.height * lineHeight`; a missing character logs a
warning and advances by `MISSING_CHAR_WIDTH`. -/
def transformRowAux (iconMapping : Char → Option Frame) (lineHeight : ℚ)
    (offsetLeft rowHeight : ℚ) : List Char → RowAcc
  | [] => ⟨[], offsetLeft, rowHeight, []⟩
  | ch :: rest =>
    match iconMapping ch with
    | some frame =>
      let rh := if rowHeight = 0 then frame.height * lineHeight else rowHeight
      let acc := transformRowAux iconMapping lineHeight
        (offsetLeft + frame.width) rh rest
      ⟨⟨ch, 0, offsetLeft⟩ :: acc.characters, acc.offsetLeft, acc.rowHeight,
        acc.warned⟩
    | none =>
      let acc := transformRowAux iconMapping lineHeight
        (offsetLeft + MISSING_CHAR_WIDTH) rowHeight rest
      ⟨⟨ch, 0, offsetLeft⟩ :: acc.characters, acc.offsetLeft, acc.rowHeight,
        ch :: acc.warned⟩

/-- What `transformRow` returns in non-word-break mode: `rowWidth` is the
final `offsetLeft`. -/
structure RowResult where
  characters : List RowChar
  rowWidth : ℚ
  rowHeight : ℚ
  warned : List Char
deriving DecidableEq, Repr

/-- From the source: `transformRow` in non-word-break mode. (The
word-break branch consults the DOM text-measurement collaborator and is
an external capability.) -/
def transformRow (row : List Char) (iconMapping : Char → Option Frame)
    (lineHeight : ℚ) : RowResult :=
  let acc := transformRowAux iconMapping lineHeight 0 0 row
  ⟨acc.characters, acc.offsetLeft, acc.rowHeight, acc.warned⟩

/-- The horizontal advance of one character in `transformRow`: the frame
width if mapped, `MISSING_CHAR_WIDTH` otherwise. -/
def charAdvance (iconMapping : Char → Option Frame) (ch : Char) : ℚ :=
  match iconMapping ch with
  | some frame => frame.width
  | none => MISSING_CHAR_WIDTH

/-- The row-height rule of `transformRow` (non-word-break) as the claim
states it: `height * lineHeight` of the first mapped character yielding a
non-zero value; 0 if there is none. -/
def firstRowHeight (iconMapping : Char → Option Frame) (lineHeight : ℚ) :
    List Char → ℚ
  | [] => 0
  | ch :: rest =>
    match iconMapping ch with
    | some frame =>
      if frame.height * lineHeight = 0 then firstRowHeight iconMapping lineHeight rest
      else frame.height * lineHeight
    | none => firstRowHeight iconMapping lineHeight rest

/-! ### Helper lemmas for the row layout -/

lemma transformRowAux_texts (im : Char → Option Frame) (lh : ℚ) :
    ∀ (l : List Char) (ol rh : ℚ),
      (transformRowAux im lh ol rh l).characters.map (fun d => d.text) = l := by
  intro l
  induction l with
  | nil => intro ol rh; rfl
  | cons ch rest ih =>
    intro ol rh
    cases him : im ch with
    | some frame => simp [transformRowAux, him, ih]
    | none => simp [transformRowAux, him, ih]

lemma transformRowAux_length (im : Char → Option Frame) (lh : ℚ)
    (l : List Char) (ol rh : ℚ) :
    (transformRowAux im lh ol rh l).characters.length = l.length := by
  have h := transformRowAux_texts im lh l ol rh
  calc (transformRowAux im lh ol rh l).characters.length
      = ((transformRowAux im lh ol rh l).characters.map (fun d => d.text)).length :=
        (List.length_map _ _).symm
    _ = l.length := by rw [h]

lemma transformRowAux_offsetLeft (im : Char → Option Frame) (lh : ℚ) :
    ∀ (l : List Char) (ol rh : ℚ),
      (transformRowAux im lh ol rh l).offsetLeft
        = ol + (l.map (charAdvance im)).sum := by
  intro l
  induction l with
  | nil => intro ol rh; simp [transformRowAux]
  | cons ch rest ih =>
    intro ol rh
    cases him : im ch with
    | some frame =>
      simp only [transformRowAux, him, List.map_cons, List.sum_cons, charAdvance]
      rw [ih]
      ring
    | none =>
      simp only [transformRowAux, him, List.map_cons, List.sum_cons, charAdvance]
      rw [ih]
      ring

lemma transformRowAux_warned (im : Char → Option Frame) (lh : ℚ) :
    ∀ (l : List Char) (ol rh : ℚ),
      (transformRowAux im lh ol rh l).warned
        = l.filter (fun ch => (im ch).isNone) := by
  intro l
  induction l with
  | nil => intro ol rh; rfl
  | cons ch rest ih =>
    intro ol rh
    cases him : im ch with
    | some frame => simp [transformRowAux, him, ih, List.filter_cons]
    | none => simp [transformRowAux, him, ih, List.filter_cons]

lemma transformRowAux_getD_offset (im : Char → Option Frame) (lh : ℚ) :
    ∀ (l : List Char) (ol rh : ℚ) (j : ℕ), j < l.length →
      ((transformRowAux im lh ol rh l).characters.getD j default).offsetLeft
        = ol + ((l.take j).map (charAdvance im)).sum := by
  intro l
  induction l with
  | nil => intro ol rh j h; simp at h
  | cons ch rest ih =>
    intro ol rh j h
    cases him : im ch with
    | some frame =>
      cases j with
      | zero => simp [transformRowAux, him]
      | succ j =>
        have hj : j < rest.length := by simpa using h
        simp only [transformRowAux, him, List.getD_cons_succ, List.take_succ_cons,
          List.map_cons, List.sum_cons]
        rw [ih (ol + frame.width) _ j hj]
        simp only [charAdvance, him]
        ring
    | none =>
      cases j with
      | zero => simp [transformRowAux, him]
      | succ j =>
        have hj : j < rest.length := by simpa using h
        simp only [transformRowAux, him, List.getD_cons_succ, List.take_succ_cons,
          List.map_cons, List.sum_cons]
        rw [ih (ol + MISSING_CHAR_WIDTH) _ j hj]
        simp only [charAdvance, him]
        ring

lemma transformRowAux_rowHeight (im : Char → Option Frame) (lh : ℚ) :
    ∀ (l : List Char) (ol rh : ℚ),
      (transformRowAux im lh ol rh l).rowHeight
        = if rh = 0 then firstRowHeight im lh l else rh := by
  intro l
  induction l with
  | nil =>
    intro ol rh
    by_cases h : rh = 0 <;> simp [transformRowAux, firstRowHeight, h]
  | cons ch rest ih =>
    intro ol rh
    cases him : im ch with
    | none => simp [transformRowAux, firstRowHeight, him, ih]
    | some frame =>
      by_cases h : rh = 0
      · by_cases hf : frame.height * lh = 0
        · simp [transformRowAux, firstRowHeight, him, h, hf, ih]
        · simp [transformRowAux, firstRowHeight, him, h, hf, ih]
      · simp [transformRowAux, firstRowHeight, him, h, ih]

lemma map_sum_take_succ (f : Char → ℚ) :
    ∀ (l : List Char) (j : ℕ), j < l.length →
      ((l.take (j + 1)).map f).sum
        = ((l.take j).map f).sum + f (l.getD j '?') := by
  intro l
  induction l with
  | nil => intro j h; simp at h
  | cons a t ih =>
    intro j h
    cases j with
    | zero => simp
    | succ j =>
      have hj : j < t.length := by simpa using h
      simp only [List.take_succ_cons, List.map_cons, List.sum_cons,
        List.getD_cons_succ]
      rw [ih j hj]
      ring

/-- From the source: `paragraph.split('\\n')` — split the paragraph into
rows on explicit line breaks; consecutive newlines produce empty rows and
a trailing newline produces a trailing empty row. -/
def splitLines : List Char → List (List Char)
  | [] => [[]]
  | ch :: rest =>
    match splitLines rest with
    | [] => [[]]
    | line :: more =>
      if ch = '\n' then [] :: line :: more else (ch :: line) :: more

/-- One per-character record emitted by `transformParagraph`: the
character, its offsets, the paragraph's finalized bounding size and its
row's size. -/
structure ParChar where
  text : Char
  offsetTop : ℚ
  offsetLeft : ℚ
  size : ℚ × ℚ
  rowSize : ℚ × ℚ
deriving DecidableEq, Repr

/-- The records of one laid-out row, shifted to the paragraph's running
`offsetTop` and given the (shared) paragraph size `sz`. -/
def rowRecords (r : RowResult) (top : ℚ) (sz : ℚ × ℚ) : List ParChar :=
  r.characters.map (fun d =>
    ⟨d.text, d.offsetTop + top, d.offsetLeft, sz, (r.rowWidth, r.rowHeight)⟩)

/-- The row loop of `transformParagraph`: emit each row's records at the
running `offsetTop`, then advance it by that row's height. -/
def flattenRows (sz : ℚ × ℚ) : List RowResult → ℚ → List ParChar
  | [], _ => []
  | r :: rest, top => rowRecords r top sz ++ flattenRows sz rest (top + r.rowHeight)

/-- All rows of a paragraph, laid out independently by `transformRow`. -/
def paragraphRowResults (paragraph : List Char) (iconMapping : Char → Option Frame)
    (lineHeight : ℚ) : List RowResult :=
  (splitLines paragraph).map (fun r => transformRow r iconMapping lineHeight)

/-- From the source: the paragraph bounding box — maximum row width
(accumulated by `Math.max` from 0) and the summed row heights. -/
def paragraphSize (paragraph : List Char) (iconMapping : Char → Option Frame)
    (lineHeight : ℚ) : ℚ × ℚ :=
  (((paragraphRowResults paragraph iconMapping lineHeight).map
      (fun r => r.rowWidth)).foldl max 0,
   ((paragraphRowResults paragraph iconMapping lineHeight).map
      (fun r => r.rowHeight)).sum)

/-- From the source: `transformParagraph` splits the paragraph on
newlines, lays out each row, and accumulates `offsetTop` by row heights
and `size` by max-width / summed-height. In the JavaScript each datum
stores a reference to the one shared `size` array, so once the call
returns every record's `size` holds the finalized box — modelled by
handing the final `paragraphSize` to every record; `transformCharacter`
is the identity callback (it preserves the datum and the shared `size`
reference). -/
def transformParagraph (paragraph : List Char) (iconMapping : Char → Option Frame)
    (lineHeight : ℚ) : List ParChar :=
  flattenRows (paragraphSize paragraph iconMapping lineHeight)
    (paragraphRowResults paragraph iconMapping lineHeight) 0

/-- A concrete glyph table for the worked examples: the characters
`a`, `b`, `c`, `d` are 5 wide and 10 tall; everything else is missing. -/
def demoMapping (ch : Char) : Option Frame :=
  if ch = 'a' ∨ ch = 'b' ∨ ch = 'c' ∨ ch = 'd' then some ⟨5, 10⟩ else none

lemma mem_flattenRows_size (sz : ℚ × ℚ) :
    ∀ (rows : List RowResult) (top : ℚ) (d : ParChar),
      d ∈ flattenRows sz rows top → d.size = sz := by
  intro rows
  induction rows with
  | nil => intro top d h; simp [flattenRows] at h
  | cons r rest ih =>
    intro top d h
    rw [flattenRows, List.mem_append] at h
    rcases h with h | h
    · rw [rowRecords, List.mem_map] at h
      obtain ⟨x, _, rfl⟩ := h
      rfl
    · exact ih _ d h

lemma getD_mem_of_lt {α : Type _} (l : List α) (d : α) :
    ∀ j, j < l.length → l.getD j d ∈ l := by
  induction l with
  | nil => intro j h; simp at h
  | cons a t ih =>
    intro j h
    cases j with
    | zero => simp
    | succ j =>
      have hm := ih j (by simpa using h)
      simp only [List.getD_cons_succ]
      exact List.mem_cons_of_mem a hm

/-- **C7.** A character missing from the icon mapping is non-fatal to the
row layout: the row still emits one record per character in order, the
missing character is reported by a warning diagnostic, and `offsetLeft`
advances past it by the fixed fallback width `MISSING_CHAR_WIDTH = 32`. -/
theorem C7_missing_char_non_fatal (row : List Char) (im : Char → Option Frame)
    (lh : ℚ) (j : ℕ) (hj : j < row.length)
    (hmiss : im (row.getD j '?') = none) :
    (transformRow row im lh).characters.length = row.length ∧
    (transformRow row im lh).characters.map (fun d => d.text) = row ∧
    row.getD j '?' ∈ (transformRow row im lh).warned ∧
    (j + 1 < row.length →
      ((transformRow row im lh).characters.getD (j + 1) default).offsetLeft
        = ((transformRow row im lh).characters.getD j default).offsetLeft
          + MISSING_CHAR_WIDTH) ∧
    (j + 1 = row.length →
      (transformRow row im lh).rowWidth
        = ((transformRow row im lh).characters.getD j default).offsetLeft
          + MISSING_CHAR_WIDTH) := by
  have hchars : (transformRow row im lh).characters
      = (transformRowAux im lh 0 0 row).characters := rfl
  have hwarn : (transformRow row im lh).warned
      = (transformRowAux im lh 0 0 row).warned := rfl
  have hwidth : (transformRow row im lh).rowWidth
      = (transformRowAux im lh 0 0 row).offsetLeft := rfl
  have hadv : charAdvance im (row.getD j '?') = MISSING_CHAR_WIDTH := by
    simp only [charAdvance, hmiss]
  refine ⟨?_, ?_, ?_, ?_, ?_⟩
  · rw [hchars]
    exact transformRowAux_length im lh row 0 0
  · rw [hchars]
    exact transformRowAux_texts im lh row 0 0
  · rw [hwarn, transformRowAux_warned]
    refine List.mem_filter.mpr ⟨getD_mem_of_lt row '?' j hj, ?_⟩
    show (im (row.getD j '?')).isNone = true
    rw [hmiss]
    rfl
  · intro hj1
    rw [hchars, transformRowAux_getD_offset im lh row 0 0 (j + 1) hj1,
      transformRowAux_getD_offset im lh row 0 0 j hj,
      map_sum_take_succ _ row j hj, hadv]
    ring
  · intro hj1
    rw [hwidth, transformRowAux_offsetLeft, hchars,
      transformRowAux_getD_offset im lh row 0 0 j hj]
    have htake : row.take (j + 1) = row := by
      rw [hj1]
      exact List.take_length row
    have h1 := map_sum_take_succ (charAdvance im) row j hj
    rw [htake, hadv] at h1
    rw [h1]
    ring

/-- Witness for C7: the row `"azb"` where `z` is missing from the demo
mapping — `z` is warned about, and the record after it sits 32 to the
right of it. -/
theorem C7_missing_char_non_fatal_witness :
    (1 < (['a', 'z', 'b'] : List Char).length ∧
      demoMapping (['a', 'z', 'b'].getD 1 '?') = none) ∧
    (transformRow ['a', 'z', 'b'] demoMapping 1).characters.length = 3 ∧
    ['a', 'z', 'b'].getD 1 '?' ∈ (transformRow ['a', 'z', 'b'] demoMapping 1).warned ∧
    ((transformRow ['a', 'z', 'b'] demoMapping 1).characters.getD 2
        default).offsetLeft
      = ((transformRow ['a', 'z', 'b'] demoMapping 1).characters.getD 1
          default).offsetLeft + MISSING_CHAR_WIDTH := by
  have h := C7_missing_char_non_fatal ['a', 'z', 'b'] demoMapping 1 1
    (by norm_num) (by decide)
  exact ⟨⟨by norm_num, by decide⟩, h.1, h.2.2.1, h.2.2.2.1 (by norm_num)⟩

/-- **C8.** Every record emitted by `transformParagraph` carries the
finalized paragraph bounding box `[max rowWidth, sum rowHeight]` as its
`size` (in the JavaScript all records alias one shared `size` array); the
two-row paragraph `"ab\ncd"` with fixed 5×10 glyphs yields exactly 4
records, rows 0 and 1 with independent `offsetTop` (0 and 10), all four
with the finalized size `(10, 20)`. -/
theorem C8_paragraph_size_backfilled :
    (∀ (p : List Char) (im : Char → Option Frame) (lh : ℚ) (d : ParChar),
      d ∈ transformParagraph p im lh → d.size = paragraphSize p im lh) ∧
    transformParagraph ['a', 'b', '\n', 'c', 'd'] demoMapping 1
      = [⟨'a', 0, 0, (10, 20), (10, 10)⟩,
         ⟨'b', 0, 5, (10, 20), (10, 10)⟩,
         ⟨'c', 10, 0, (10, 20), (10, 10)⟩,
         ⟨'d', 10, 5, (10, 20), (10, 10)⟩] := by
  constructor
  · intro p im lh d hd
    exact mem_flattenRows_size _ _ _ d hd
  · have hsplit : splitLines ['a', 'b', '\n', 'c', 'd'] = [['a', 'b'], ['c', 'd']] := rfl
    have ha : demoMapping 'a' = some ⟨5, 10⟩ := rfl
    have hb : demoMapping 'b' = some ⟨5, 10⟩ := rfl
    have hc : demoMapping 'c' = some ⟨5, 10⟩ := rfl
    have hd : demoMapping 'd' = some ⟨5, 10⟩ := rfl
    norm_num [transformParagraph, flattenRows, rowRecords, paragraphRowResults,
      paragraphSize, hsplit, transformRow, transformRowAux, ha, hb, hc, hd,
      max_def]

/-- Witness for C8 at the `'a'` record of the worked paragraph. -/
theorem C8_paragraph_size_backfilled_witness :
    (⟨'a', 0, 0, (10, 20), (10, 10)⟩ : ParChar)
        ∈ transformParagraph ['a', 'b', '\n', 'c', 'd'] demoMapping 1 ∧
    (⟨'a', 0, 0, (10, 20), (10, 10)⟩ : ParChar).size
      = paragraphSize ['a', 'b', '\n', 'c', 'd'] demoMapping 1 := by
  have hmem : (⟨'a', 0, 0, (10, 20), (10, 10)⟩ : ParChar)
      ∈ transformParagraph ['a', 'b', '\n', 'c', 'd'] demoMapping 1 := by
    rw [C8_paragraph_size_backfilled.2]
    simp
  exact ⟨hmem,
    C8_paragraph_size_backfilled.1 ['a', 'b', '\n', 'c', 'd'] demoMapping 1 _ hmem⟩

lemma firstRowHeight_of_all_none (im : Char → Option Frame) (lh : ℚ) :
    ∀ (l : List Char), (∀ ch ∈ l, im ch = none) → firstRowHeight im lh l = 0 := by
  intro l
  induction l with
  | nil => intro _; rfl
  | cons ch rest ih =>
    intro h
    have hch : im ch = none := h ch (List.mem_cons_self ch rest)
    simp only [firstRowHeight, hch]
    exact ih (fun c hc => h c (List.mem_cons_of_mem ch hc))

/-- **C9.** In non-word-break mode a row's height is
`iconMapping[ch].height * lineHeight` for the first mapped character of
the row yielding a non-zero value; a row with no mapped character — or an
empty row, as produced by consecutive newlines — has height 0 and
therefore adds no vertical offset to the rows that follow it. -/
theorem C9_row_height_rule (im : Char → Option Frame) (lh : ℚ) (row : List Char) :
    (transformRow row im lh).rowHeight = firstRowHeight im lh row ∧
    ((∀ ch ∈ row, im ch = none) → (transformRow row im lh).rowHeight = 0) ∧
    (transformRow [] im lh).rowHeight = 0 ∧
    (∀ (r : RowResult) (rest : List RowResult) (top : ℚ) (sz : ℚ × ℚ),
      r.rowHeight = 0 →
      flattenRows sz (r :: rest) top
        = rowRecords r top sz ++ flattenRows sz rest top) ∧
    splitLines ['a', '\n', '\n', 'b'] = [['a'], [], ['b']] ∧
    transformParagraph ['a', '\n', 'z', '\n', 'b'] demoMapping 1
      = [⟨'a', 0, 0, (32, 20), (5, 10)⟩,
         ⟨'z', 10, 0, (32, 20), (32, 0)⟩,
         ⟨'b', 10, 0, (32, 20), (5, 10)⟩] := by
  have h1 : (transformRow row im lh).rowHeight = firstRowHeight im lh row := by
    show (transformRowAux im lh 0 0 row).rowHeight = _
    rw [transformRowAux_rowHeight]
    simp
  refine ⟨h1, ?_, rfl, ?_, rfl, ?_⟩
  · intro h
    rw [h1]
    exact firstRowHeight_of_all_none im lh row h
  · intro r rest top sz h0
    show rowRecords r top sz ++ flattenRows sz rest (top + r.rowHeight)
        = rowRecords r top sz ++ flattenRows sz rest top
    rw [h0, add_zero]
  · have hsplit : splitLines ['a', '\n', 'z', '\n', 'b'] = [['a'], ['z'], ['b']] := rfl
    have ha : demoMapping 'a' = some ⟨5, 10⟩ := rfl
    have hb : demoMapping 'b' = some ⟨5, 10⟩ := rfl
    have hz : demoMapping 'z' = none := rfl
    norm_num [transformParagraph, flattenRows, rowRecords, paragraphRowResults,
      paragraphSize, hsplit, transformRow, transformRowAux, ha, hb, hz,
      MISSING_CHAR_WIDTH, max_def]

/-- Witness for C9: the row `"z"` has no mapped character, so its height
is 0. -/
theorem C9_row_height_rule_witness :
    (∀ ch ∈ (['z'] : List Char), demoMapping ch = none) ∧
    (transformRow ['z'] demoMapping 1).rowHeight = 0 :=
  ⟨by decide, (C9_row_height_rule demoMapping 1 ['z']).2.1 (by decide)⟩

end DeckGL
